import Mathlib

/-!
Shallow embedding of `src/dual_phase_serial.py` (two-phase serial frame
acquisition) and verification of the frozen claims about it.

Modelling conventions:
* Python `bytes` values are `List Nat` with each element in `0..255`.
* Python `float` times, durations and deadlines are integers (`Int`): the
  control flow only compares and adds times, so an arbitrary discrete clock
  scale carries the same information and keeps every run kernel-computable.
* The external frame reader (`_read_one_frame_from_serial`) is an oracle:
  a finite list of events, each either a decoded frame or a timeout, each
  carrying the wall-clock duration the call consumed.  Running out of oracle
  events models an execution prefix that is too short; the functions report
  this as a distinguished "starved" outcome.
* Printed output is modelled as a trace of events carrying the rendered
  strings (numeric rendering of the configuration fields in the purely
  informational "Opening ..." banner is abstracted by `toString`).
-/

namespace DualPhase

/-- ASCII characters that Python `str.split()` treats as whitespace. -/
def isPySpace (c : Char) : Bool :=
  c == ' ' || c == '\t' || c == '\n' || c == '\r' || c == '\x0b' || c == '\x0c'

/-- Accumulator pass of Python `str.split()`: split on whitespace runs,
dropping empty parts.  `acc` holds the current token reversed. -/
def splitAux : List Char → List Char → List (List Char)
  | [], acc => if acc.isEmpty then [] else [acc.reverse]
  | c :: cs, acc =>
    if isPySpace c then
      if acc.isEmpty then splitAux cs []
      else acc.reverse :: splitAux cs []
    else splitAux cs (c :: acc)

/-- Python `str.split()` with no argument (split on whitespace, no empties). -/
def pySplit (s : List Char) : List (List Char) := splitAux s []

/-- `text.replace(",", " ").replace(";", " ")` from `_parse_hex_sequence`. -/
def normalizeSeps (s : List Char) : List Char :=
  s.map (fun c => if c == ',' || c == ';' then ' ' else c)

/-- Value of a digit character; 99 is a sentinel above every base in use
(2, 8, 10, 16), so `digitVal c < b` means "`c` is a valid base-`b` digit". -/
def digitVal (c : Char) : Nat :=
  if '0' ≤ c ∧ c ≤ '9' then c.toNat - 48
  else if 'a' ≤ c ∧ c ≤ 'f' then c.toNat - 87
  else if 'A' ≤ c ∧ c ≤ 'F' then c.toNat - 55
  else 99

/-- Digit-run scanner for CPython `int(s, b)` literal digits: underscores are
allowed only singly and only between digits (`afterU` records whether the
previous character was an underscore); any other non-digit character fails. -/
def digitsGo (b : Nat) : List Char → Bool → Nat → Option Nat
  | [], afterU, acc => if afterU then none else some acc
  | c :: cs, afterU, acc =>
    if c = '_' then (if afterU then none else digitsGo b cs true acc)
    else if digitVal c < b then digitsGo b cs false (acc * b + digitVal c)
    else none

/-- A base-`b` digit run must start with a digit (never an underscore). -/
def parseDigits (b : Nat) : List Char → Option Nat
  | [] => none
  | c :: cs => if digitVal c < b then digitsGo b cs false (digitVal c) else none

/-- Digits after a `0x`/`0o`/`0b` prefix: CPython additionally allows a single
underscore directly after the prefix (for example `0x_7E`). -/
def parsePrefixed (b : Nat) : List Char → Option Nat
  | [] => parseDigits b []
  | c :: cs => if c = '_' then parseDigits b cs else parseDigits b (c :: cs)

/-- Unprefixed run of CPython `int(s, 0)`: a decimal literal, where a leading
zero is allowed only when the value is zero (so `010` is rejected, `00` is
accepted). -/
def parseDecimal (ds : List Char) : Option Nat :=
  match parseDigits 10 ds with
  | none => none
  | some v => if ds.head? = some '0' ∧ v ≠ 0 then none else some v

/-- CPython `int(s, 0)` after the optional sign: base prefix auto-detection. -/
def pyIntNoSign : List Char → Option Nat
  | [] => parseDecimal []
  | [c] => parseDecimal [c]
  | c0 :: c :: cs =>
    if c0 = '0' then
      if c = 'x' ∨ c = 'X' then parsePrefixed 16 cs
      else if c = 'o' ∨ c = 'O' then parsePrefixed 8 cs
      else if c = 'b' ∨ c = 'B' then parsePrefixed 2 cs
      else parseDecimal (c0 :: c :: cs)
    else parseDecimal (c0 :: c :: cs)

/-- CPython `int(token, 0)` on an ASCII token with no surrounding whitespace
(the only shape `_parse_hex_sequence` ever feeds it): optional sign, then a
prefix-auto-detected integer literal.  `none` models `ValueError`. -/
def pyIntBase0 : List Char → Option Int
  | [] => (pyIntNoSign []).map (fun n => (n : Int))
  | c :: cs =>
    if c = '+' then (pyIntNoSign cs).map (fun n => (n : Int))
    else if c = '-' then (pyIntNoSign cs).map (fun n => -(n : Int))
    else (pyIntNoSign (c :: cs)).map (fun n => (n : Int))

/-- The `ValueError` cases `_parse_hex_sequence` can raise, one constructor
per `raise` site in the source. -/
inductive ParseError : Type
  | emptyText : ParseError
  | noTokens : ParseError
  | badToken : String → ParseError
  | outOfRange : Int → String → ParseError
deriving DecidableEq, Repr

/-- The message text each `raise ValueError(...)` site produces. -/
def parseErrorMsg : ParseError → String
  | .emptyText => "Empty request cannot be converted to bytes"
  | .noTokens => "No hex tokens found in request string"
  | .badToken t => "Could not parse \x27" ++ t ++ "\x27 as a hex byte"
  | .outOfRange v t => "Value " ++ toString v ++ " from \x27" ++ t ++ "\x27 is outside byte range"

/-- The token loop of `_parse_hex_sequence`: parse each token with
`int(token, 0)`, then check `0 <= value <= 0xFF`, collecting in order;
the first failure aborts with that token's error. -/
def parseTokens : List (List Char) → Except ParseError (List Nat)
  | [] => .ok []
  | t :: ts =>
    match pyIntBase0 t with
    | none => .error (.badToken (String.mk t))
    | some v =>
      if 0 ≤ v ∧ v ≤ 255 then
        match parseTokens ts with
        | .error e => .error e
        | .ok vs => .ok (v.toNat :: vs)
      else .error (.outOfRange v (String.mk t))

/-- `_parse_hex_sequence(text)`: empty-text check, separator normalization
(commas and semicolons become spaces), whitespace split, then the token loop. -/
def parse_hex_sequence (text : String) : Except ParseError (List Nat) :=
  if text.data = [] then .error .emptyText
  else
    let tokens := pySplit (normalizeSeps text.data)
    if tokens = [] then .error .noTokens
    else parseTokens tokens

/-- One uppercase hex digit. -/
def hexDigitChar (n : Nat) : Char :=
  if n < 10 then Char.ofNat (48 + n) else Char.ofNat (55 + n)

/-- Python `f"{b:02X}"` for a byte value `b < 256`. -/
def byteHex (b : Nat) : String :=
  String.mk [hexDigitChar (b / 16 % 16), hexDigitChar (b % 16)]

/-- `_format_bytes(data)`: uppercase two-digit hex bytes joined by ", ". -/
def format_bytes (data : List Nat) : String :=
  String.intercalate ", " (data.map byteHex)

/-- One behaviour of a `_read_one_frame_from_serial` call: either a decoded
frame or a `TimeoutError`, each taking `dur` seconds of wall-clock time. -/
inductive ReadEv : Type
  | frame : Int → List Nat → ReadEv
  | timeout : Int → ReadEv
deriving DecidableEq, Repr

/-- Observable actions of the program, in order of occurrence. -/
inductive Ev : Type
  | openLink : Ev
  | closeLink : Ev
  | write : List Nat → Ev
  | flush : Ev
  | sleep : Int → Ev
  | line : String → Ev
  | errLine : String → Ev
deriving DecidableEq, Repr

/-- Result of the listen loop of `_listen_for_initial_values`:
`observed` frames, printed `lines`, the (start, end) times of every frame
reader `calls`, the final `clock`, the unconsumed oracle `rest`, and
`finished = false` when the oracle prefix ran out before the loop stopped. -/
structure LState : Type where
  observed : Nat
  lines : List String
  calls : List (Int × Int)
  clock : Int
  rest : List ReadEv
  finished : Bool
deriving DecidableEq, Repr

/-- The `while time.time() < deadline` loop of `_listen_for_initial_values`:
a successful read prints and counts the frame; a `TimeoutError` re-checks the
deadline (break if passed) and otherwise keeps looping.  The clock advances
only by the duration of each frame reader call. -/
def listenLoop (deadline : Int) : List ReadEv → Int → Nat → LState
  | [], clock, observed =>
    if clock < deadline then ⟨observed, [], [], clock, [], false⟩
    else ⟨observed, [], [], clock, [], true⟩
  | ev :: evs, clock, observed =>
    if clock < deadline then
      match ev with
      | .frame d data =>
        let s := listenLoop deadline evs (clock + d) (observed + 1)
        { s with
          lines := ("Okamzite frame " ++ toString (observed + 1) ++ ": " ++ format_bytes data)
            :: s.lines,
          calls := (clock, clock + d) :: s.calls }
      | .timeout d =>
        if deadline ≤ clock + d then ⟨observed, [], [(clock, clock + d)], clock + d, evs, true⟩
        else
          let s := listenLoop deadline evs (clock + d) observed
          { s with calls := (clock, clock + d) :: s.calls }
    else ⟨observed, [], [], clock, ev :: evs, true⟩

/-- `_listen_for_initial_values(ser, cfg, initial_seconds)` starting at wall
time `t0`: capture `deadline = time.time() + initial_seconds`, run the loop,
then print the explicit empty-result message when no frame was observed. -/
def listen_for_initial_values (initial_seconds : Int) (t0 : Int) (evs : List ReadEv) : LState :=
  let s := listenLoop (t0 + initial_seconds) evs t0 0
  if s.finished ∧ s.observed = 0 then
    { s with lines := s.lines ++ ["No Okamzite hodnoty frames captured within the initial window."] }
  else s

/-- Outcome of `_read_frames`: all `count` frames read, a `TimeoutError`
escaped, or the oracle prefix ran out. -/
inductive RFOut : Type
  | ok : RFOut
  | timedOut : RFOut
  | starved : RFOut
deriving DecidableEq, Repr

/-- The `for idx in range(1, count + 1)` loop of `_read_frames`: each
successful read prints "{label} {idx}: {hex}"; a `TimeoutError` escapes at
once (remaining oracle is what follows the failed call). -/
def readLoop (label : String) : Nat → Nat → List ReadEv → List Ev × RFOut × List ReadEv
  | _, 0, evs => ([], .ok, evs)
  | _, _ + 1, [] => ([], .starved, [])
  | idx, n + 1, .frame _ data :: evs =>
    let r := readLoop label (idx + 1) n evs
    (.line (label ++ " " ++ toString idx ++ ": " ++ format_bytes data) :: r.1, r.2.1, r.2.2)
  | _, _ + 1, .timeout _ :: evs => ([], .timedOut, evs)

/-- `_read_frames(ser, cfg, count, label=..., after_write_delay=...)`:
an initial `time.sleep(after_write_delay)` guarded by Python truthiness
(skipped when the delay is 0), then the read loop. -/
def read_frames (count : Nat) (label : String) (after_write_delay : Int)
    (evs : List ReadEv) : List Ev × RFOut × List ReadEv :=
  let r := readLoop label 1 count evs
  ((if after_write_delay ≠ 0 then [Ev.sleep after_write_delay] else []) ++ r.1, r.2.1, r.2.2)

/-- Outcome of the active query phase: completed, aborted by a
`TimeoutError` while reading request `reqIdx`'s responses (1-based), or the
oracle prefix ran out. -/
inductive AOut : Type
  | completed : AOut
  | timedOut : Nat → AOut
  | starved : AOut
deriving DecidableEq, Repr

/-- The `for req_idx, request in enumerate(requests, start=1)` loop of
`_send_requests_and_collect`: write, flush, print the sent line, then
`_read_frames`; a `TimeoutError` from the reads propagates, so no later
request is processed. -/
def sendLoop (rpr : Nat) (delay : Int) : Nat → List (List Nat) → List ReadEv →
    List Ev × AOut × List ReadEv
  | _, [], evs => ([], .completed, evs)
  | idx, req :: reqs, evs =>
    let hd : List Ev :=
      [.write req, .flush, .line ("Sent request " ++ toString idx ++ ": " ++ format_bytes req)]
    let r := read_frames rpr ("Response to request " ++ toString idx) delay evs
    match r.2.1 with
    | .ok =>
      let r2 := sendLoop rpr delay (idx + 1) reqs r.2.2
      (hd ++ r.1 ++ r2.1, r2.2.1, r2.2.2)
    | .timedOut => (hd ++ r.1, .timedOut idx, r.2.2)
    | .starved => (hd ++ r.1, .starved, r.2.2)

/-- `_send_requests_and_collect(ser, cfg, requests, responses_per_request,
post_write_delay)`. -/
def send_requests_and_collect (requests : List (List Nat)) (rpr : Nat) (delay : Int)
    (evs : List ReadEv) : List Ev × AOut × List ReadEv :=
  sendLoop rpr delay 1 requests evs

/-- The write events contained in a trace, in order. -/
def writesOf (tr : List Ev) : List (List Nat) :=
  tr.filterMap (fun ev => match ev with | .write d => some d | _ => none)

/-- The parsed command-line arguments `main` consumes (argument parsing
itself is an external collaborator). -/
structure Args : Type where
  port : String
  baudrate : Nat
  timeout : Int
  interbyte_timeout : Int
  initial_seconds : Int
  requests : List String
  responses_per_request : Nat
  post_write_delay : Int
deriving DecidableEq, Repr

/-- The `for raw in args.requests` loop of `main`: parse each request in
order; the first `ValueError` aborts with that raw text and error. -/
def parseRequests : List String → Except (String × ParseError) (List (List Nat))
  | [] => .ok []
  | raw :: rest =>
    match parse_hex_sequence raw with
    | .error e => .error (raw, e)
    | .ok bs =>
      match parseRequests rest with
      | .error e => .error e
      | .ok others => .ok (bs :: others)

/-- How a run of `main` ends: `exited c` models `return c`; `raisedTimeout i`
models a `TimeoutError` escaping from request `i`'s response reads (the
process then dies with a traceback); `starved` marks an oracle prefix too
short to determine the rest of the run. -/
inductive MOut : Type
  | exited : Nat → MOut
  | raisedTimeout : Nat → MOut
  | starved : MOut
deriving DecidableEq, Repr

/-- The stderr line `main` prints for a request that fails hex parsing. -/
def requestErrLine (raw : String) (e : ParseError) : String :=
  "Could not parse request \x27" ++ raw ++ "\x27: " ++ parseErrorMsg e

/-- The informational banner printed before the link is opened (numeric
rendering of the rational fields is abstracted by `toString`). -/
def openingLine (a : Args) : String :=
  "Opening " ++ a.port ++ " at " ++ toString a.baudrate ++ " baud (timeout=" ++
    toString a.timeout ++ "s, interbyte=" ++ toString a.interbyte_timeout ++ "s)"

/-- `main(argv)` after argument parsing, started at wall time `t0` against
frame reader oracle `evs`: parse all requests (exit 2 on the first failure,
before any link I/O), print the banner, open the link, run the passive
listen phase then (when requests exist) the active query phase, and close
the link on leaving the `with` block — also when a `TimeoutError` escapes.
A starved oracle leaves the program still blocked inside the `with` block,
so no close event is emitted for it. -/
def main (a : Args) (t0 : Int) (evs : List ReadEv) : MOut × List Ev :=
  match parseRequests a.requests with
  | .error (raw, e) => (.exited 2, [.errLine (requestErrLine raw e)])
  | .ok requests =>
    let pre : List Ev := [.line (openingLine a), .openLink]
    let s := listen_for_initial_values a.initial_seconds t0 evs
    let listenTr : List Ev := s.lines.map Ev.line
    if s.finished = false then (.starved, pre ++ listenTr)
    else if requests = [] then
      (.exited 0, pre ++ listenTr ++
        [.line "No additional requests provided; exiting after initial capture.", .closeLink])
    else
      let r := send_requests_and_collect requests a.responses_per_request a.post_write_delay s.rest
      match r.2.1 with
      | .completed => (.exited 0, pre ++ listenTr ++ r.1 ++ [.closeLink])
      | .timedOut i => (.raisedTimeout i, pre ++ listenTr ++ r.1 ++ [.closeLink])
      | .starved => (.starved, pre ++ listenTr ++ r.1)

/-- The ten ASCII decimal digit characters. -/
def decDigits : List Char := ['0', '1', '2', '3', '4', '5', '6', '7', '8', '9']

theorem decDigit_cases (c : Char) (h : c ∈ decDigits) :
    c = '0' ∨ c = '1' ∨ c = '2' ∨ c = '3' ∨ c = '4' ∨ c = '5' ∨ c = '6' ∨ c = '7' ∨
      c = '8' ∨ c = '9' := by
  simpa [decDigits] using h

theorem decDigit_digitVal_lt (c : Char) (h : c ∈ decDigits) : digitVal c < 10 := by
  rcases decDigit_cases c h with rfl | rfl | rfl | rfl | rfl | rfl | rfl | rfl | rfl | rfl <;>
    decide

theorem decDigit_not_special (c : Char) (h : c ∈ decDigits) :
    c ≠ '_' ∧ c ≠ '+' ∧ c ≠ '-' ∧ ¬(c = 'x' ∨ c = 'X') ∧ ¬(c = 'o' ∨ c = 'O') ∧
      ¬(c = 'b' ∨ c = 'B') ∧ (c == ',' || c == ';') = false ∧ isPySpace c = false := by
  rcases decDigit_cases c h with rfl | rfl | rfl | rfl | rfl | rfl | rfl | rfl | rfl | rfl <;>
    decide

theorem decDigit_digitVal_pos (c : Char) (h : c ∈ decDigits) (h0 : c ≠ '0') :
    digitVal c ≠ 0 := by
  rcases decDigit_cases c h with rfl | rfl | rfl | rfl | rfl | rfl | rfl | rfl | rfl | rfl <;>
    first
    | exact absurd rfl h0
    | decide

/-- A run of decimal digits containing a nonzero digit (or started from a
nonzero accumulator) never scans to the value 0. -/
theorem digitsGo_ne_zero (ds : List Char) :
    (∀ c ∈ ds, c ∈ decDigits) → ∀ (afterU : Bool) (acc v : Nat),
      digitsGo 10 ds afterU acc = some v → (acc ≠ 0 ∨ ∃ c ∈ ds, c ≠ '0') → v ≠ 0 := by
  induction ds with
  | nil =>
    intro _ afterU acc v h hor
    cases afterU with
    | true => simp [digitsGo] at h
    | false =>
      simp [digitsGo] at h
      subst h
      rcases hor with h1 | ⟨c, hc, _⟩
      · exact h1
      · exact absurd hc (List.not_mem_nil c)
  | cons c cs ih =>
    intro hmem afterU acc v h hor
    have hcd := hmem c (List.mem_cons_self c cs)
    have hne := (decDigit_not_special c hcd).1
    have hlt := decDigit_digitVal_lt c hcd
    simp only [digitsGo] at h
    rw [if_neg hne, if_pos hlt] at h
    refine ih (fun x hx => hmem x (List.mem_cons_of_mem c hx)) false _ v h ?_
    rcases hor with h1 | ⟨c', hc', hne'⟩
    · left
      omega
    · rcases List.mem_cons.mp hc' with hceq | hc'cs
      · left
        rw [hceq] at hne'
        have := decDigit_digitVal_pos c hcd hne'
        omega
      · right
        exact ⟨c', hc'cs, hne'⟩

/-- `str.split()` on text containing no whitespace returns the single token
(the accumulator pass, stated generally). -/
theorem splitAux_nosep (t : List Char) :
    (∀ c ∈ t, isPySpace c = false) → ∀ acc : List Char,
      splitAux t acc = if acc.reverse ++ t = [] then [] else [acc.reverse ++ t] := by
  induction t with
  | nil =>
    intro _ acc
    cases acc <;> simp [splitAux]
  | cons c cs ih =>
    intro h acc
    have hc := h c (List.mem_cons_self c cs)
    simp only [splitAux, hc, Bool.false_eq_true, if_false]
    rw [ih (fun x hx => h x (List.mem_cons_of_mem c hx)) (c :: acc)]
    simp

theorem pySplit_single (t : List Char) (h : ∀ c ∈ t, isPySpace c = false) (hne : t ≠ []) :
    pySplit t = [t] := by
  unfold pySplit
  rw [splitAux_nosep t h []]
  simp [hne]

theorem normalizeSeps_eq_self (t : List Char)
    (h : ∀ c ∈ t, (c == ',' || c == ';') = false) : normalizeSeps t = t := by
  induction t with
  | nil => rfl
  | cons c cs ih =>
    have hc := h c (List.mem_cons_self c cs)
    have hcs := ih (fun x hx => h x (List.mem_cons_of_mem c hx))
    simp only [normalizeSeps, List.map_cons] at hcs ⊢
    rw [hcs, hc]
    simp

/-- `int(token, 0)` rejects an all-decimal-digit token with a leading zero and
some nonzero digit (a base-0 decimal literal may not have leading zeros). -/
theorem pyIntBase0_leadingZero (c1 : Char) (rest : List Char)
    (hd : ∀ c ∈ '0' :: c1 :: rest, c ∈ decDigits)
    (hnz : ∃ c ∈ '0' :: c1 :: rest, c ≠ '0') :
    pyIntBase0 ('0' :: c1 :: rest) = none := by
  have hc1 := hd c1 (List.mem_cons_of_mem _ (List.mem_cons_self c1 rest))
  have hs := decDigit_not_special c1 hc1
  simp only [pyIntBase0]
  rw [if_neg (by decide), if_neg (by decide)]
  simp only [pyIntNoSign]
  rw [if_pos trivial, if_neg hs.2.2.2.1, if_neg hs.2.2.2.2.1, if_neg hs.2.2.2.2.2.1]
  suffices hsuf : parseDecimal ('0' :: c1 :: rest) = none by simp [hsuf]
  unfold parseDecimal
  cases hpd : parseDigits 10 ('0' :: c1 :: rest) with
  | none => rfl
  | some v =>
    simp only [parseDigits] at hpd
    rw [if_pos (by decide : digitVal '0' < 10)] at hpd
    have hv : v ≠ 0 := by
      refine digitsGo_ne_zero (c1 :: rest)
        (fun x hx => hd x (List.mem_cons_of_mem _ hx)) false (digitVal '0') v hpd ?_
      right
      rcases hnz with ⟨c, hc, hne⟩
      rcases List.mem_cons.mp hc with rfl | hcs
      · exact absurd rfl hne
      · exact ⟨c, hcs, hne⟩
    show (if ('0' :: c1 :: rest).head? = some '0' ∧ v ≠ 0 then none else some v) = none
    rw [if_pos ⟨rfl, hv⟩]

/-- C2: the spec claims `parse_hex_sequence "7E 14,17 00"` and
`parse_hex_sequence "0x7E,0x14,0x17,0x00"` both return `[0x7E,0x14,0x17,0x00]`,
matching the source's own docstring ("Convert a string like \"7E 14,17 00\" …
to bytes") and its module example `--request "7E 14 17 00"`.  The code instead
parses each token with `int(token, 0)`, which reads unprefixed tokens as
decimal, so the bare-hex text fails on its first token `7E` while the
`0x`-prefixed text succeeds: the code contradicts its own documentation. -/
theorem claim_C2 :
    parse_hex_sequence "7E 14,17 00" = .error (.badToken "7E") ∧
    parse_hex_sequence "0x7E,0x14,0x17,0x00" = .ok [0x7E, 0x14, 0x17, 0x00] := by
  exact ⟨rfl, rfl⟩

/-- C3: the spec claims `format_bytes (parse_hex_sequence t)` re-parses to the
same byte sequence.  On the code this fails: `format_bytes` renders uppercase
bare hex, which `int(token, 0)` then reads as decimal (or rejects).  At
`t = "0x14"` the bytes `[20]` render as `"14"`, which re-parses to `[14] ≠
[20]`; at `t = "0x7E"` the bytes `[126]` render as `"7E"`, which does not
re-parse at all.  (The order-preserving first half of the claim does hold; see
the general token-loop lemmas used by other claims.) -/
theorem claim_C3 :
    parse_hex_sequence "0x14" = .ok [20] ∧
    format_bytes [20] = "14" ∧
    parse_hex_sequence "14" = .ok [14] ∧
    (14 : Nat) ≠ 20 ∧
    parse_hex_sequence "0x7E" = .ok [126] ∧
    format_bytes [126] = "7E" ∧
    parse_hex_sequence "7E" = .error (.badToken "7E") := by
  refine ⟨rfl, rfl, rfl, by decide, rfl, rfl, rfl⟩

/-- C6: `parse_hex_sequence` fails with the appropriate `ParseError` on the
empty text, on separator-only text, on an out-of-range value, and on a
non-integer token; in no case is a byte sequence returned. -/
theorem claim_C6 :
    parse_hex_sequence "" = .error .emptyText ∧
    parse_hex_sequence " , ; " = .error .noTokens ∧
    parse_hex_sequence "0x100" = .error (.outOfRange 256 "0x100") ∧
    parse_hex_sequence "ZZ" = .error (.badToken "ZZ") := by
  exact ⟨rfl, rfl, rfl, rfl⟩

/-- C9 claims every multi-digit token starting with `0` and carrying no base
prefix fails to parse.  `"00"` is such a token, yet the code accepts it (a
run of zeros is a valid base-0 literal with value 0), so the claim as stated
is false. -/
theorem claim_C9_counterexample :
    parse_hex_sequence "00" = .ok [0] := by
  exact rfl

/-- C9 (amended): any token consisting solely of decimal digits, with at
least two digits, starting with `'0'`, and containing a nonzero digit, fails
to parse with a `ParseError`, even though its decimal value may lie in 0–255,
because each token is parsed as a base-0 (prefix-auto-detecting) integer
literal and such a literal may not have leading zeros.  (Tokens of that shape
made only of zeros, such as `"00"`, are instead accepted with value 0.) -/
theorem claim_C9 (t : List Char) (hlen : 2 ≤ t.length)
    (hd : ∀ c ∈ t, c ∈ decDigits) (h0 : t.head? = some '0')
    (hnz : ∃ c ∈ t, c ≠ '0') :
    parse_hex_sequence (String.mk t) = .error (.badToken (String.mk t)) := by
  match t, hlen with
  | c0 :: c1 :: rest, _ =>
    have hc0 : c0 = '0' := by simpa using h0
    subst hc0
    have hnosep : ∀ c ∈ '0' :: c1 :: rest, (c == ',' || c == ';') = false :=
      fun c hc => (decDigit_not_special c (hd c hc)).2.2.2.2.2.2.1
    have hnospace : ∀ c ∈ '0' :: c1 :: rest, isPySpace c = false :=
      fun c hc => (decDigit_not_special c (hd c hc)).2.2.2.2.2.2.2
    unfold parse_hex_sequence
    rw [if_neg (by simp : ¬(String.mk ('0' :: c1 :: rest)).data = [])]
    show (if pySplit (normalizeSeps ('0' :: c1 :: rest)) = [] then _ else _) = _
    rw [normalizeSeps_eq_self _ hnosep, pySplit_single _ hnospace (by simp)]
    rw [if_neg (by simp)]
    show parseTokens [('0' :: c1 :: rest)] = _
    simp only [parseTokens]
    rw [pyIntBase0_leadingZero c1 rest hd hnz]

/-- Witness for C9 at the token "010". -/
theorem claim_C9_witness :
    parse_hex_sequence "010" = .error (.badToken "010") := by
  exact claim_C9 ("010".data) (by decide) (by decide) (by decide) ⟨'1', by decide, by decide⟩

/-- Once the wall clock is at or past the deadline, the listen loop performs
no frame reader call: it stops at once, leaving the oracle untouched. -/
theorem listenLoop_stopped (deadline : Int) (evs : List ReadEv) (clock : Int) (obs : Nat)
    (h : ¬clock < deadline) :
    listenLoop deadline evs clock obs = ⟨obs, [], [], clock, evs, true⟩ := by
  cases evs with
  | nil =>
    simp only [listenLoop]
    rw [if_neg h]
  | cons ev evs =>
    simp only [listenLoop]
    rw [if_neg h]

/-- Every frame reader call of the listen loop starts strictly before the
deadline. -/
theorem listenLoop_calls_start_lt (deadline : Int) (evs : List ReadEv) :
    ∀ (clock : Int) (obs : Nat), ∀ c ∈ (listenLoop deadline evs clock obs).calls,
      c.1 < deadline := by
  induction evs with
  | nil =>
    intro clock obs c hc
    by_cases h : clock < deadline <;> simp [listenLoop, h] at hc
  | cons ev evs ih =>
    intro clock obs c hc
    by_cases h : clock < deadline
    · cases ev with
      | frame d data =>
        simp only [listenLoop, if_pos h] at hc
        rcases List.mem_cons.mp hc with hceq | hcs
        · rw [hceq]
          exact h
        · exact ih (clock + d) (obs + 1) c hcs
      | timeout d =>
        simp only [listenLoop, if_pos h] at hc
        by_cases h2 : deadline ≤ clock + d
        · rw [if_pos h2] at hc
          rcases List.mem_cons.mp hc with hceq | hcs
          · rw [hceq]
            exact h
          · exact absurd hcs (List.not_mem_nil c)
        · rw [if_neg h2] at hc
          rcases List.mem_cons.mp hc with hceq | hcs
          · rw [hceq]
            exact h
          · exact ih (clock + d) obs c hcs
    · rw [listenLoop_stopped deadline _ clock obs h] at hc
      exact absurd hc (List.not_mem_nil c)

/-- At most one frame reader call of the listen loop ends at or after the
deadline (and it is necessarily the last one, since the loop re-checks the
clock after every call). -/
theorem listenLoop_calls_past_deadline (deadline : Int) (evs : List ReadEv) :
    ∀ (clock : Int) (obs : Nat),
      ((listenLoop deadline evs clock obs).calls.filter
        (fun c => decide (deadline ≤ c.2))).length ≤ 1 := by
  induction evs with
  | nil =>
    intro clock obs
    by_cases h : clock < deadline <;> simp [listenLoop, h]
  | cons ev evs ih =>
    intro clock obs
    by_cases h : clock < deadline
    · cases ev with
      | frame d data =>
        simp only [listenLoop, if_pos h]
        by_cases h2 : deadline ≤ clock + d
        · rw [listenLoop_stopped deadline _ _ _ (not_lt.mpr h2)]
          simpa using List.length_filter_le (fun c => decide (deadline ≤ c.2))
            [(clock, clock + d)]
        · simp only [List.filter_cons, decide_eq_true_eq, if_neg h2]
          exact ih (clock + d) (obs + 1)
      | timeout d =>
        simp only [listenLoop, if_pos h]
        by_cases h2 : deadline ≤ clock + d
        · rw [if_pos h2]
          simpa using List.length_filter_le (fun c => decide (deadline ≤ c.2))
            [(clock, clock + d)]
        · rw [if_neg h2]
          simp only [List.filter_cons, decide_eq_true_eq, if_neg h2]
          exact ih (clock + d) obs
    · rw [listenLoop_stopped deadline _ clock obs h]
      simp

/-- The deadline bookkeeping of the wrapper does not change the call log. -/
theorem listen_calls_eq (initial_seconds t0 : Int) (evs : List ReadEv) :
    (listen_for_initial_values initial_seconds t0 evs).calls =
      (listenLoop (t0 + initial_seconds) evs t0 0).calls := by
  simp only [listen_for_initial_values]
  split <;> rfl

/-- C5: the passive listen phase always stops at or shortly after
`initial_seconds` have elapsed: every frame reader call starts before the
captured deadline `t0 + initial_seconds`, and at most one call runs past it
(a call in progress when the deadline passes cannot be preempted; as soon as
any clock check sees the deadline passed, the loop stops).  This holds for
every frame reader behaviour: any interleaving of frames and timeouts, with
any nonnegative or even adversarial call durations. -/
theorem claim_C5 (initial_seconds t0 : Int) (evs : List ReadEv) :
    (∀ c ∈ (listen_for_initial_values initial_seconds t0 evs).calls,
      c.1 < t0 + initial_seconds) ∧
    ((listen_for_initial_values initial_seconds t0 evs).calls.filter
      (fun c => decide (t0 + initial_seconds ≤ c.2))).length ≤ 1 := by
  rw [listen_calls_eq]
  exact ⟨listenLoop_calls_start_lt _ evs t0 0, listenLoop_calls_past_deadline _ evs t0 0⟩

/-- Witness for C5 on a concrete run: two reader timeouts inside a 3-second
window; the call log is [(0, 2), (2, 4)], the second call overruns the
deadline and is the only one to do so. -/
theorem claim_C5_witness :
    ((0 : Int), (2 : Int)) ∈ (listen_for_initial_values 3 0 [.timeout 2, .timeout 2]).calls ∧
    ((0 : Int), (2 : Int)).1 < 0 + 3 ∧
    ((listen_for_initial_values 3 0 [.timeout 2, .timeout 2]).calls.filter
      (fun c => decide ((0 : Int) + 3 ≤ c.2))).length ≤ 1 := by
  refine ⟨by decide, (claim_C5 3 0 [.timeout 2, .timeout 2]).1 (0, 2) (by decide),
    (claim_C5 3 0 [.timeout 2, .timeout 2]).2⟩

/-- C10: with `initial_seconds` zero or negative the deadline comparison
fails immediately: the passive listen phase performs no frame reader call,
observes zero frames, prints the explicit empty-window message, and leaves
the whole oracle (the link's frame stream) for the active query phase. -/
theorem claim_C10 (initial_seconds t0 : Int) (h : initial_seconds ≤ 0) (evs : List ReadEv) :
    listen_for_initial_values initial_seconds t0 evs =
      ⟨0, ["No Okamzite hodnoty frames captured within the initial window."],
        [], t0, evs, true⟩ := by
  have hstop : ¬t0 < t0 + initial_seconds := by omega
  unfold listen_for_initial_values
  rw [listenLoop_stopped _ evs t0 0 hstop]
  simp

/-- Witness for C10 at `initial_seconds = 0` with a nonempty oracle. -/
theorem claim_C10_witness :
    (0 : Int) ≤ 0 ∧
    listen_for_initial_values 0 7 [.frame 1 [1, 2], .timeout 1] =
      ⟨0, ["No Okamzite hodnoty frames captured within the initial window."],
        [], 7, [.frame 1 [1, 2], .timeout 1], true⟩ :=
  ⟨le_refl 0, claim_C10 0 7 (le_refl 0) [.frame 1 [1, 2], .timeout 1]⟩

theorem writesOf_append (a b : List Ev) :
    writesOf (a ++ b) = writesOf a ++ writesOf b := by
  simp [writesOf, List.filterMap_append]

/-- The read loop only prints; it never writes to the link. -/
theorem readLoop_writes_nil (label : String) :
    ∀ (n idx : Nat) (evs : List ReadEv), writesOf (readLoop label idx n evs).1 = [] := by
  intro n
  induction n with
  | zero => intro idx evs; rfl
  | succ n ih =>
    intro idx evs
    cases evs with
    | nil => rfl
    | cons ev evs =>
      cases ev with
      | frame d data => simpa [readLoop, writesOf] using ih (idx + 1) evs
      | timeout d => rfl

/-- `_read_frames` only sleeps and prints; it never writes to the link. -/
theorem read_frames_writes_nil (count : Nat) (label : String) (delay : Int)
    (evs : List ReadEv) : writesOf (read_frames count label delay evs).1 = [] := by
  show writesOf ((if delay ≠ 0 then [Ev.sleep delay] else []) ++ (readLoop label 1 count evs).1)
    = []
  rw [writesOf_append, readLoop_writes_nil]
  by_cases h : delay ≠ 0 <;> simp [h, writesOf]

/-- When the active query loop aborts with a timeout while collecting request
`j`'s responses, exactly the requests up to and including `j` were written. -/
theorem sendLoop_timedOut_writes (rpr : Nat) (delay : Int) :
    ∀ (reqs : List (List Nat)) (idx : Nat) (evs : List ReadEv) (tr : List Ev) (j : Nat)
      (rest : List ReadEv),
      sendLoop rpr delay idx reqs evs = (tr, .timedOut j, rest) →
      idx ≤ j ∧ writesOf tr = reqs.take (j + 1 - idx) := by
  intro reqs
  induction reqs with
  | nil =>
    intro idx evs tr j rest h
    simp [sendLoop] at h
  | cons req reqs ih =>
    intro idx evs tr j rest h
    simp only [sendLoop] at h
    rcases hrf : read_frames rpr ("Response to request " ++ toString idx) delay evs with
      ⟨tr1, out1, rest1⟩
    rw [hrf] at h
    have htr1 : writesOf tr1 = [] := by
      have hw := read_frames_writes_nil rpr ("Response to request " ++ toString idx) delay evs
      rw [hrf] at hw
      exact hw
    cases out1 with
    | ok =>
      rcases hsl : sendLoop rpr delay (idx + 1) reqs rest1 with ⟨tr2, out2, rest2⟩
      rw [hsl] at h
      simp only [Prod.mk.injEq] at h
      rw [h.2.1] at hsl
      obtain ⟨hle, hw2⟩ := ih (idx + 1) rest1 tr2 j rest2 hsl
      refine ⟨by omega, ?_⟩
      rw [← h.1, writesOf_append, writesOf_append, htr1, hw2]
      have harith : j + 1 - idx = (j + 1 - (idx + 1)) + 1 := by omega
      rw [harith, List.take_succ_cons]
      simp [writesOf]
    | timedOut =>
      simp only [Prod.mk.injEq, AOut.timedOut.injEq] at h
      rw [← h.2.1]
      refine ⟨le_refl idx, ?_⟩
      rw [← h.1, writesOf_append, htr1]
      have harith : idx + 1 - idx = 1 := by omega
      rw [harith]
      simp [writesOf]
    | starved => simp at h

/-- C1: a `FrameTimeout` is absorbed by the passive listen phase — when a
reader call times out and the deadline has not yet passed, the loop records
the call and continues exactly as the loop on the remaining oracle — whereas
in the active query phase a `FrameTimeout` propagates: when
`_send_requests_and_collect` aborts with a timeout while reading request
`i`'s responses, precisely requests `1..i` were written to the link, so no
later request in the sequence is ever transmitted. -/
theorem claim_C1 :
    (∀ (deadline d : Int) (evs : List ReadEv) (clock : Int) (obs : Nat),
      clock < deadline → clock + d < deadline →
      listenLoop deadline (ReadEv.timeout d :: evs) clock obs =
        { listenLoop deadline evs (clock + d) obs with
          calls := (clock, clock + d) :: (listenLoop deadline evs (clock + d) obs).calls }) ∧
    (∀ (requests : List (List Nat)) (rpr : Nat) (delay : Int) (evs : List ReadEv)
      (tr : List Ev) (i : Nat) (rest : List ReadEv),
      send_requests_and_collect requests rpr delay evs = (tr, .timedOut i, rest) →
      writesOf tr = requests.take i) := by
  constructor
  · intro deadline d evs clock obs h1 h2
    simp only [listenLoop, if_pos h1]
    rw [if_neg (not_le.mpr h2)]
  · intro requests rpr delay evs tr i rest h
    have hw := (sendLoop_timedOut_writes rpr delay requests 1 evs tr i rest h).2
    simpa using hw

/-- Witness for C1: a timeout at clock 0 with deadline 5 is absorbed (the
loop goes on), and a two-request session whose first response read times out
writes only the first request. -/
theorem claim_C1_witness :
    (listenLoop 5 [ReadEv.timeout 1] 0 0 =
      { listenLoop 5 [] (0 + 1) 0 with
        calls := (0, 0 + 1) :: (listenLoop 5 [] (0 + 1) 0).calls }) ∧
    writesOf [Ev.write [1], Ev.flush, Ev.line "Sent request 1: 01"] = [[1], [2]].take 1 :=
  ⟨claim_C1.1 5 1 [] 0 0 (by decide) (by decide),
    claim_C1.2 [[1], [2]] 1 0 [.timeout 0]
      [Ev.write [1], Ev.flush, Ev.line "Sent request 1: 01"] 1 [] (by decide)⟩

/-- The response report lines for one request: frames numbered from 1,
each reported as "{label} {idx}: {hex}". -/
def respLines (label : String) : Nat → List (Int × List Nat) → List Ev
  | _, [] => []
  | idx, p :: g =>
    .line (label ++ " " ++ toString idx ++ ": " ++ format_bytes p.2) ::
      respLines label (idx + 1) g

/-- Modelled from the amended claim C4's words: the expected exchange for
request `i` — write the raw bytes and flush, report it as sent with index
and hex rendering, wait `delay` seconds once (skipped when zero), then the
`responses_per_request` response reports in order. -/
def specExchange (delay : Int) (i : Nat) (req : List Nat) (g : List (Int × List Nat)) :
    List Ev :=
  [.write req, .flush, .line ("Sent request " ++ toString i ++ ": " ++ format_bytes req)] ++
    (if delay ≠ 0 then [Ev.sleep delay] else []) ++
    respLines ("Response to request " ++ toString i) 1 g

/-- Modelled from the amended claim C4's words: the whole active phase trace,
the exchange for request `i` completing before request `i + 1` is written. -/
def specActive (delay : Int) : Nat → List (List Nat) → List (List (Int × List Nat)) → List Ev
  | _, [], _ => []
  | _, _ :: _, [] => []
  | i, req :: reqs, g :: gs => specExchange delay i req g ++ specActive delay (i + 1) reqs gs

/-- Reading exactly `g.length` frames from an oracle that starts with the
frames of `g` consumes precisely them and reports each in order. -/
theorem readLoop_frames (label : String) :
    ∀ (g : List (Int × List Nat)) (idx : Nat) (rest : List ReadEv),
      readLoop label idx g.length ((g.map (fun p => ReadEv.frame p.1 p.2)) ++ rest) =
        (respLines label idx g, .ok, rest) := by
  intro g
  induction g with
  | nil => intro idx rest; rfl
  | cons p g ih =>
    intro idx rest
    simp only [List.length_cons, List.map_cons, List.cons_append, readLoop, respLines,
      List.append_eq]
    rw [ih (idx + 1) rest]

theorem read_frames_frames (count : Nat) (label : String) (delay : Int)
    (g : List (Int × List Nat)) (rest : List ReadEv) (hc : count = g.length) :
    read_frames count label delay ((g.map (fun p => ReadEv.frame p.1 p.2)) ++ rest) =
      ((if delay ≠ 0 then [Ev.sleep delay] else []) ++ respLines label 1 g, .ok, rest) := by
  subst hc
  unfold read_frames
  rw [readLoop_frames]

/-- The active query loop against an all-frames oracle with `rpr` frames per
request runs to completion and produces exactly the specified trace. -/
theorem sendLoop_completed_spec (rpr : Nat) (delay : Int) :
    ∀ (reqs : List (List Nat)) (groups : List (List (Int × List Nat))) (idx : Nat)
      (rest0 : List ReadEv),
      reqs.length = groups.length → (∀ g ∈ groups, g.length = rpr) →
      sendLoop rpr delay idx reqs
          ((groups.map (fun g => g.map (fun p => ReadEv.frame p.1 p.2))).flatten ++ rest0) =
        (specActive delay idx reqs groups, .completed, rest0) := by
  intro reqs
  induction reqs with
  | nil =>
    intro groups idx rest0 hlen _
    cases groups with
    | nil => rfl
    | cons g gs => simp at hlen
  | cons req reqs ih =>
    intro groups idx rest0 hlen hg
    cases groups with
    | nil => simp at hlen
    | cons g gs =>
      have hglen : g.length = rpr := hg g (List.mem_cons_self g gs)
      have hor : ((g :: gs).map (fun g => g.map (fun p => ReadEv.frame p.1 p.2))).flatten ++ rest0
          = (g.map (fun p => ReadEv.frame p.1 p.2)) ++
            ((gs.map (fun g => g.map (fun p => ReadEv.frame p.1 p.2))).flatten ++ rest0) := by
        simp [List.append_assoc]
      rw [hor]
      simp only [sendLoop]
      rw [read_frames_frames rpr _ delay g _ hglen.symm]
      dsimp only
      rw [ih gs (idx + 1) rest0 (by simpa using hlen)
        (fun x hx => hg x (List.mem_cons_of_mem g hx))]
      simp [specActive, specExchange, List.append_assoc]

/-- C4 claims each response is reported as "Response to request i: <index>:
<hex>".  The code prints the label and index separated by a space, with no
colon after the request number: "Response to request i <index>: <hex>".
Concretely, one request `[0x7E]` answered by the frame `[0x7E, 0x14]`
produces the line "Response to request 1 1: 7E, 14", not the claimed
"Response to request 1: 1: 7E, 14". -/
theorem claim_C4_counterexample :
    send_requests_and_collect [[126]] 1 1 [.frame 0 [126, 20]] =
      ([Ev.write [126], Ev.flush, Ev.line "Sent request 1: 7E", Ev.sleep 1,
        Ev.line "Response to request 1 1: 7E, 14"], .completed, []) ∧
    Ev.line "Response to request 1 1: 7E, 14" ≠ Ev.line "Response to request 1: 1: 7E, 14" := by
  exact ⟨by decide, by decide⟩

/-- C4 (amended): for each request `i` taken in order, the active query phase
writes the request's raw bytes and flushes, reports it as sent with index
and hex rendering, waits `post_write_delay` seconds once (the sleep call is
skipped when the delay is zero), then reads exactly `responses_per_request`
frames sequentially via the frame reader, reporting each as
"Response to request i <index>: <hex>"; the exchange for request `i`
completes before request `i + 1` is written.  Stated as: against any oracle
offering `responses_per_request` frames per request, the phase completes and
its trace is exactly the specified per-request concatenation. -/
theorem claim_C4 (requests : List (List Nat)) (rpr : Nat) (delay : Int)
    (groups : List (List (Int × List Nat))) (rest0 : List ReadEv)
    (hlen : requests.length = groups.length) (hg : ∀ g ∈ groups, g.length = rpr) :
    send_requests_and_collect requests rpr delay
        ((groups.map (fun g => g.map (fun p => ReadEv.frame p.1 p.2))).flatten ++ rest0) =
      (specActive delay 1 requests groups, .completed, rest0) :=
  sendLoop_completed_spec rpr delay requests groups 1 rest0 hlen hg

/-- Witness for C4: two requests, one response frame each. -/
theorem claim_C4_witness :
    send_requests_and_collect [[126], [21]] 1 1
        [ReadEv.frame 0 [126, 20], ReadEv.frame 0 [21, 1]] =
      (specActive 1 1 [[126], [21]] [[(0, [126, 20])], [(0, [21, 1])]], .completed, []) := by
  have h := claim_C4 [[126], [21]] 1 1 [[(0, [126, 20])], [(0, [21, 1])]] []
    (by decide) (by decide)
  simpa using h

/-- Every event the read loop emits is a printed line. -/
theorem readLoop_mem_line (label : String) :
    ∀ (n idx : Nat) (evs : List ReadEv) (x : Ev), x ∈ (readLoop label idx n evs).1 →
      ∃ s, x = .line s := by
  intro n
  induction n with
  | zero => intro idx evs x hx; simp [readLoop] at hx
  | succ n ih =>
    intro idx evs x hx
    cases evs with
    | nil => simp [readLoop] at hx
    | cons ev evs =>
      cases ev with
      | frame d data =>
        simp only [readLoop] at hx
        rcases List.mem_cons.mp hx with hxe | hxs
        · exact ⟨_, hxe⟩
        · exact ih (idx + 1) evs x hxs
      | timeout d => simp [readLoop] at hx

theorem read_frames_no_close (count : Nat) (label : String) (delay : Int)
    (evs : List ReadEv) : Ev.closeLink ∉ (read_frames count label delay evs).1 := by
  show Ev.closeLink ∉
    (if delay ≠ 0 then [Ev.sleep delay] else []) ++ (readLoop label 1 count evs).1
  intro hmem
  rcases List.mem_append.mp hmem with h | h
  · by_cases hd : delay ≠ 0 <;> simp [hd] at h
  · obtain ⟨s, hs⟩ := readLoop_mem_line label count 1 evs _ h
    exact Ev.noConfusion hs

/-- The active query loop never closes the link. -/
theorem sendLoop_no_close (rpr : Nat) (delay : Int) :
    ∀ (reqs : List (List Nat)) (idx : Nat) (evs : List ReadEv),
      Ev.closeLink ∉ (sendLoop rpr delay idx reqs evs).1 := by
  intro reqs
  induction reqs with
  | nil => intro idx evs; simp [sendLoop]
  | cons req reqs ih =>
    intro idx evs
    simp only [sendLoop]
    rcases hrf : read_frames rpr ("Response to request " ++ toString idx) delay evs with
      ⟨tr1, out1, rest1⟩
    have h1 : Ev.closeLink ∉ tr1 := by
      have h := read_frames_no_close rpr ("Response to request " ++ toString idx) delay evs
      rw [hrf] at h
      exact h
    cases out1 with
    | ok =>
      intro hmem
      rcases List.mem_append.mp hmem with h | h
      · rcases List.mem_append.mp h with h | h
        · simp at h
        · exact h1 h
      · exact ih (idx + 1) rest1 h
    | timedOut =>
      intro hmem
      rcases List.mem_append.mp hmem with h | h
      · simp at h
      · exact h1 h
    | starved =>
      intro hmem
      rcases List.mem_append.mp hmem with h | h
      · simp at h
      · exact h1 h

theorem map_line_no_close (l : List String) : Ev.closeLink ∉ l.map Ev.line := by
  simp [List.mem_map]

/-- C7: whenever a run of `main` that opened the link terminates — normally
or by a propagating `TimeoutError` from the active query phase — the link is
closed exactly once, and the close is the very last action, in particular it
happens before the error leaves `main` (the `with serial.Serial(...)` block
guarantees release on every exit path). -/
theorem claim_C7 (a : Args) (t0 : Int) (evs : List ReadEv)
    (hout : (main a t0 evs).1 ≠ .starved)
    (hopen : Ev.openLink ∈ (main a t0 evs).2) :
    (main a t0 evs).2.count Ev.closeLink = 1 ∧
    (main a t0 evs).2.getLast? = some Ev.closeLink := by
  rcases hpr : parseRequests a.requests with pe | bs
  · obtain ⟨raw, e⟩ := pe
    have hm : main a t0 evs = (.exited 2, [.errLine (requestErrLine raw e)]) := by
      unfold main
      rw [hpr]
    rw [hm] at hopen
    simp at hopen
  · by_cases hfin : (listen_for_initial_values a.initial_seconds t0 evs).finished = false
    · have hm : (main a t0 evs).1 = .starved := by
        unfold main
        rw [hpr]
        dsimp only
        rw [if_pos hfin]
      exact absurd hm hout
    · by_cases hbs : bs = []
      · have hm : main a t0 evs = (.exited 0,
            [.line (openingLine a), .openLink] ++
              (listen_for_initial_values a.initial_seconds t0 evs).lines.map Ev.line ++
              [.line "No additional requests provided; exiting after initial capture.",
                .closeLink]) := by
          unfold main
          rw [hpr]
          dsimp only
          rw [if_neg hfin, if_pos hbs]
        rw [hm]
        constructor
        · simp only [List.count_append]
          rw [List.count_eq_zero.mpr
            (map_line_no_close (listen_for_initial_values a.initial_seconds t0 evs).lines)]
          simp [List.count_cons]
        · dsimp only
          rw [List.getLast?_append]
          simp
      · rcases hsr : send_requests_and_collect bs a.responses_per_request a.post_write_delay
            (listen_for_initial_values a.initial_seconds t0 evs).rest with ⟨tr2, out2, rest2⟩
        have h2 : Ev.closeLink ∉ tr2 := by
          have h := sendLoop_no_close a.responses_per_request a.post_write_delay bs 1
            (listen_for_initial_values a.initial_seconds t0 evs).rest
          rw [show sendLoop a.responses_per_request a.post_write_delay 1 bs
              (listen_for_initial_values a.initial_seconds t0 evs).rest =
              (tr2, out2, rest2) from hsr] at h
          exact h
        have htrace : ∀ m : MOut, main a t0 evs = (m,
            [.line (openingLine a), .openLink] ++
              (listen_for_initial_values a.initial_seconds t0 evs).lines.map Ev.line ++
              tr2 ++ [.closeLink]) →
            (main a t0 evs).2.count Ev.closeLink = 1 ∧
            (main a t0 evs).2.getLast? = some Ev.closeLink := by
          intro m hm
          rw [hm]
          constructor
          · simp only [List.count_append]
            rw [List.count_eq_zero.mpr
              (map_line_no_close (listen_for_initial_values a.initial_seconds t0 evs).lines),
              List.count_eq_zero.mpr h2]
            simp [List.count_cons]
          · dsimp only
            rw [List.getLast?_append]
            simp
        cases out2 with
        | completed =>
          refine htrace (.exited 0) ?_
          unfold main
          rw [hpr]
          dsimp only
          rw [if_neg hfin, if_neg hbs, hsr]
        | timedOut i =>
          refine htrace (.raisedTimeout i) ?_
          unfold main
          rw [hpr]
          dsimp only
          rw [if_neg hfin, if_neg hbs, hsr]
        | starved =>
          have hm : (main a t0 evs).1 = .starved := by
            unfold main
            rw [hpr]
            dsimp only
            rw [if_neg hfin, if_neg hbs, hsr]
          exact absurd hm hout

/-- Witness for C7: a request-free session closes the link once, last. -/
theorem claim_C7_witness :
    (main ⟨"COM5", 38400, 1, 1, 0, [], 1, 0⟩ 0 []).2.count Ev.closeLink = 1 ∧
    (main ⟨"COM5", 38400, 1, 1, 0, [], 1, 0⟩ 0 []).2.getLast? = some Ev.closeLink :=
  claim_C7 ⟨"COM5", 38400, 1, 1, 0, [], 1, 0⟩ 0 [] (by decide) (by decide)

/-- Whether a raw request string fails hex parsing. -/
def parseFails (r : String) : Bool :=
  match parse_hex_sequence r with
  | .error _ => true
  | .ok _ => false

/-- The request-parsing loop of `main` stops at the first offending value:
its error is exactly the first raw string whose parse fails. -/
theorem parseRequests_first_error :
    ∀ (rs : List String) (raw : String), rs.find? parseFails = some raw →
      ∃ e, parse_hex_sequence raw = .error e ∧ parseRequests rs = .error (raw, e) := by
  intro rs
  induction rs with
  | nil => intro raw h; simp at h
  | cons r0 rest ih =>
    intro raw h
    cases hp : parse_hex_sequence r0 with
    | error e0 =>
      have hb : parseFails r0 = true := by simp [parseFails, hp]
      rw [List.find?_cons_of_pos _ hb] at h
      obtain rfl := Option.some.inj h
      exact ⟨e0, hp, by simp [parseRequests, hp]⟩
    | ok bs0 =>
      have hb : ¬parseFails r0 = true := by simp [parseFails, hp]
      rw [List.find?_cons_of_neg _ hb] at h
      obtain ⟨e, he, hpr⟩ := ih raw h
      exact ⟨e, he, by simp [parseRequests, hp, hpr]⟩

/-- When no request value fails parsing, the whole request list parses. -/
theorem parseRequests_ok_of_none :
    ∀ rs : List String, rs.find? parseFails = none → ∃ bs, parseRequests rs = .ok bs := by
  intro rs
  induction rs with
  | nil => intro _; exact ⟨[], rfl⟩
  | cons r0 rest ih =>
    intro h
    cases hp : parse_hex_sequence r0 with
    | error e0 =>
      have hb : parseFails r0 = true := by simp [parseFails, hp]
      rw [List.find?_cons_of_pos _ hb] at h
      simp at h
    | ok bs0 =>
      have hb : ¬parseFails r0 = true := by simp [parseFails, hp]
      rw [List.find?_cons_of_neg _ hb] at h
      obtain ⟨bs, hbs⟩ := ih h
      exact ⟨bs0 :: bs, by simp [parseRequests, hp, hbs]⟩

/-- C8 claims failures are "reported per offending value".  The code returns
on the first failure: with the two offending values "ZZ" and "QQ" it emits a
single error line naming only "ZZ", never examining "QQ". -/
theorem claim_C8_counterexample :
    parse_hex_sequence "ZZ" = .error (.badToken "ZZ") ∧
    parse_hex_sequence "QQ" = .error (.badToken "QQ") ∧
    (main ⟨"COM5", 38400, 1, 1, 5, ["ZZ", "QQ"], 1, 0⟩ 0 []).2 =
      [.errLine "Could not parse request \x27ZZ\x27: Could not parse \x27ZZ\x27 as a hex byte"] :=
  ⟨rfl, rfl, rfl⟩

/-- C8 (amended): if any `--request` value fails hex parsing, the program
exits with code 2, reports the first offending value with its literal text
(later values are not examined), and aborts before opening the link — the
whole trace is that single stderr line, so no open and no write ever happen;
if every request parses, any exit is exit 0 (the run can also end by a
propagated `TimeoutError` or, in this model, by oracle exhaustion, but never
with a nonzero exit code). -/
theorem claim_C8 (a : Args) (t0 : Int) (evs : List ReadEv) :
    (∀ raw, a.requests.find? parseFails = some raw →
      ∃ e, parse_hex_sequence raw = .error e ∧
        main a t0 evs = (.exited 2, [.errLine (requestErrLine raw e)])) ∧
    (a.requests.find? parseFails = none →
      (main a t0 evs).1 = .exited 0 ∨ (main a t0 evs).1 = .starved ∨
        ∃ i, (main a t0 evs).1 = .raisedTimeout i) := by
  constructor
  · intro raw hfind
    obtain ⟨e, he, hpr⟩ := parseRequests_first_error a.requests raw hfind
    refine ⟨e, he, ?_⟩
    unfold main
    rw [hpr]
  · intro hnone
    obtain ⟨bs, hok⟩ := parseRequests_ok_of_none a.requests hnone
    unfold main
    rw [hok]
    dsimp only
    by_cases hfin : (listen_for_initial_values a.initial_seconds t0 evs).finished = false
    · rw [if_pos hfin]
      right
      left
      rfl
    · rw [if_neg hfin]
      by_cases hbs : bs = []
      · rw [if_pos hbs]
        left
        rfl
      · rw [if_neg hbs]
        rcases hsr : send_requests_and_collect bs a.responses_per_request a.post_write_delay
            (listen_for_initial_values a.initial_seconds t0 evs).rest with ⟨tr2, out2, rest2⟩
        cases out2 with
        | completed =>
          left
          rfl
        | timedOut i =>
          right
          right
          exact ⟨i, rfl⟩
        | starved =>
          right
          left
          rfl

/-- Witness for C8: a bad request value exits 2 with only its own report and
no link activity; a good request value runs to exit 0. -/
theorem claim_C8_witness :
    (∃ e, parse_hex_sequence "ZZ" = .error e ∧
      main ⟨"COM5", 38400, 1, 1, 5, ["ZZ"], 1, 0⟩ 0 [] =
        (.exited 2, [.errLine (requestErrLine "ZZ" e)])) ∧
    ((main ⟨"COM5", 38400, 1, 1, 0, ["0x01"], 1, 0⟩ 0 [.frame 0 [9]]).1 = .exited 0 ∨
      (main ⟨"COM5", 38400, 1, 1, 0, ["0x01"], 1, 0⟩ 0 [.frame 0 [9]]).1 = .starved ∨
      ∃ i, (main ⟨"COM5", 38400, 1, 1, 0, ["0x01"], 1, 0⟩ 0
        [.frame 0 [9]]).1 = .raisedTimeout i) :=
  ⟨(claim_C8 ⟨"COM5", 38400, 1, 1, 5, ["ZZ"], 1, 0⟩ 0 []).1 "ZZ" (by decide),
    (claim_C8 ⟨"COM5", 38400, 1, 1, 0, ["0x01"], 1, 0⟩ 0 [.frame 0 [9]]).2 (by decide)⟩

end DualPhase
